import Mathlib

/-!
# Verification of the linear-operator core of jaxopt (src/jaxopt/base.py)

Shallow embedding of `LinearOperator` and `CompositeLinearFunction` over the
real numbers.  Dense matrices are `Matrix (Fin m) (Fin n) ℝ`, vectors are
`Fin k → ℝ`, and `jnp.dot` on a matrix and a vector is `Matrix.mulVec`.

Python-level dynamic behaviour is made explicit:

* `NDArray` represents a JAX ndarray of any rank; the dispatch on
  `len(x.shape)` in `update_matvec` / `update_rmatvec` becomes a match on its
  constructors (rank 0 / 1 / 2 / ≥ 3).
* Failure (`IndexError`, `NotImplementedError`, `ValueError`) is an explicit
  `Except PyErr` result.  Indexing `A[idx]` / `A[:, idx]` with a concrete
  out-of-range index raises `IndexError` in JAX just as in NumPy, which the
  embedding models with an explicit bound check.
* NumPy size-1 broadcasting of mismatched operands in `+` / `*` / `outer` is
  not modelled: mismatched shapes map to a broadcast `ValueError`, and ndarray
  operands of ranks that the documented contract never supplies (for example a
  rank-3 `delta`) map to the same error.  No theorem below depends on these
  unreachable paths.
-/

/-- Python exception kinds raised by the embedded code. -/
inductive PyErr where
  | indexError : PyErr
  | notImplementedError : PyErr
  | valueError (msg : String) : PyErr
  | typeError : PyErr
  deriving DecidableEq

/-- Multi-index into an ndarray of the given shape. -/
def NDIndex : List ℕ → Type
  | [] => Unit
  | d :: ds => Fin d × NDIndex ds

/-- A JAX ndarray, organised by rank: rank 0 (scalar), rank 1 (vector),
rank 2 (matrix), and any higher rank. -/
inductive NDArray where
  | scalar (v : ℝ) : NDArray
  | ofVec {k : ℕ} (v : Fin k → ℝ) : NDArray
  | ofMat {r c : ℕ} (M : Matrix (Fin r) (Fin c) ℝ) : NDArray
  | ofTensor (shape : List ℕ) (data : NDIndex shape → ℝ)
      (h : 3 ≤ shape.length) : NDArray

/-- `len(x.shape)` of an ndarray. -/
def NDArray.rank : NDArray → ℕ
  | .scalar _ => 0
  | .ofVec (k := _) _ => 1
  | .ofMat _ => 2
  | .ofTensor shape _ _ => shape.length

/-- The broadcast failure NumPy raises on incompatible operand shapes. -/
def broadcastErr : PyErr :=
  .valueError "operands could not be broadcast together"

/-- The message of the rank-validation error in the update methods. -/
def rankErrMsg : String := "Ax should be a vector or a matrix."

/-- `class LinearOperator`: wraps a dense matrix `A` of shape `(m, n)`.
`__init__` materialises the caller's array (`self.A = jnp.array(A)`), so the
field holds the matrix values themselves. -/
structure LinearOperator (m n : ℕ) where
  A : Matrix (Fin m) (Fin n) ℝ

namespace LinearOperator

variable {m n : ℕ}

/-- `shape(self)`: returns `self.A.shape`, i.e. `(m, n)`. -/
def shape (_op : LinearOperator m n) : ℕ × ℕ := (m, n)

/-- `matvec(self, x)`: computes `jnp.dot(self.A, x)`, the product `A·x`. -/
def matvec (op : LinearOperator m n) (x : Fin n → ℝ) : Fin m → ℝ :=
  op.A.mulVec x

/-- `matvec_element(self, x, idx)`: computes `jnp.dot(self.A[idx], x)`.
Row indexing with an out-of-range `idx` raises `IndexError`. -/
def matvec_element (op : LinearOperator m n) (x : Fin n → ℝ) (idx : ℕ) :
    Except PyErr ℝ :=
  if h : idx < m then .ok (Matrix.dotProduct (op.A ⟨idx, h⟩) x)
  else .error .indexError

/-- `rmatvec(self, x)`: computes `jnp.dot(self.A.T, x)`, the product `Aᵀ·x`. -/
def rmatvec (op : LinearOperator m n) (x : Fin m → ℝ) : Fin n → ℝ :=
  op.A.transpose.mulVec x

/-- `rmatvec_element(self, x, idx)`: computes `jnp.dot(self.A[:, idx], x)`.
Column indexing with an out-of-range `idx` raises `IndexError`. -/
def rmatvec_element (op : LinearOperator m n) (x : Fin m → ℝ) (idx : ℕ) :
    Except PyErr ℝ :=
  if h : idx < n then .ok (Matrix.dotProduct (fun i => op.A i ⟨idx, h⟩) x)
  else .error .indexError

/-- `update_matvec(self, Ax, delta, idx)`: updates `dot(A, x)` when
`x[idx] += delta`.

* rank-1 `Ax`: returns `Ax + delta * self.A[:, idx]`;
* rank-2 `Ax`: returns `Ax + jnp.outer(self.A[:, idx], delta)`, where
  `jnp.outer` flattens `delta` (a scalar becomes a length-1 vector);
* any other rank: raises `ValueError("Ax should be a vector or a matrix.")`.

Column extraction `self.A[:, idx]` bound-checks `idx < n`; the elementwise
`+` and `*` require exactly matching shapes (see the header note on
broadcasting). -/
def update_matvec (op : LinearOperator m n) (Ax : NDArray) (delta : NDArray)
    (idx : ℕ) : Except PyErr NDArray :=
  match Ax with
  | .ofVec (k := k) v =>
    if hidx : idx < n then
      match delta with
      | .scalar d =>
        if hk : k = m then
          .ok (.ofVec (fun i : Fin m =>
            v (Fin.cast hk.symm i) + d * op.A i ⟨idx, hidx⟩))
        else .error broadcastErr
      | .ofVec (k := k') w =>
        if hk : k = m ∧ k' = m then
          .ok (.ofVec (fun i : Fin m =>
            v (Fin.cast hk.1.symm i) + w (Fin.cast hk.2.symm i) * op.A i ⟨idx, hidx⟩))
        else .error broadcastErr
      | _ => .error broadcastErr
    else .error .indexError
  | .ofMat (r := r) (c := c) M =>
    if hidx : idx < n then
      match delta with
      | .scalar d =>
        if hrc : r = m ∧ c = 1 then
          .ok (.ofMat (fun (i : Fin m) (j : Fin 1) =>
            M (Fin.cast hrc.1.symm i) (Fin.cast hrc.2.symm j) +
              op.A i ⟨idx, hidx⟩ * d))
        else .error broadcastErr
      | .ofVec (k := k') w =>
        if hrc : r = m ∧ c = k' then
          .ok (.ofMat (fun (i : Fin m) (j : Fin k') =>
            M (Fin.cast hrc.1.symm i) (Fin.cast hrc.2.symm j) +
              op.A i ⟨idx, hidx⟩ * w j))
        else .error broadcastErr
      | _ => .error broadcastErr
    else .error .indexError
  | .scalar _ => .error (.valueError rankErrMsg)
  | .ofTensor _ _ _ => .error (.valueError rankErrMsg)

/-- `update_rmatvec(self, ATx, delta, idx)`: updates `dot(A.T, x)` when
`x[idx] += delta`.

* rank-1 `ATx`: returns `ATx + delta * self.A[idx]` (row indexing
  bound-checks `idx < m`);
* rank-2 `ATx`: raises `NotImplementedError`;
* any other rank: raises `ValueError("Ax should be a vector or a matrix.")`. -/
def update_rmatvec (op : LinearOperator m n) (ATx : NDArray) (delta : NDArray)
    (idx : ℕ) : Except PyErr NDArray :=
  match ATx with
  | .ofVec (k := k) v =>
    if hidx : idx < m then
      match delta with
      | .scalar d =>
        if hk : k = n then
          .ok (.ofVec (fun j : Fin n =>
            v (Fin.cast hk.symm j) + d * op.A ⟨idx, hidx⟩ j))
        else .error broadcastErr
      | .ofVec (k := k') w =>
        if hk : k = n ∧ k' = n then
          .ok (.ofVec (fun j : Fin n =>
            v (Fin.cast hk.1.symm j) + w (Fin.cast hk.2.symm j) * op.A ⟨idx, hidx⟩ j))
        else .error broadcastErr
      | _ => .error broadcastErr
    else .error .indexError
  | .ofMat _ => .error .notImplementedError
  | .scalar _ => .error (.valueError rankErrMsg)
  | .ofTensor _ _ _ => .error (.valueError rankErrMsg)

/-- `column_l2_norms(self, squared=False)`: `ret = jnp.sum(self.A ** 2,
axis=0)`, then `ret = jnp.sqrt(ret)` unless `squared`. -/
noncomputable def column_l2_norms (op : LinearOperator m n) (squared : Bool := false) :
    Fin n → ℝ :=
  let ret : Fin n → ℝ := fun j => ∑ i, op.A i j ^ 2
  if squared then ret else fun j => Real.sqrt (ret j)

/-- `tree_flatten(self)`: returns `((self.A,), None)` — the ordered list of
leaf arrays and the (empty) auxiliary data. -/
def tree_flatten (op : LinearOperator m n) :
    List (Matrix (Fin m) (Fin n) ℝ) × Unit :=
  ([op.A], ())

/-- `tree_unflatten(cls, aux_data, children)`: discards `aux_data` and calls
`cls(*children)`; a children list that is not a single leaf makes the
constructor call fail (`TypeError` on arity). -/
def tree_unflatten (_aux_data : Unit)
    (children : List (Matrix (Fin m) (Fin n) ℝ)) :
    Except PyErr (LinearOperator m n) :=
  match children with
  | [A] => .ok ⟨A⟩
  | _ => .error .typeError

end LinearOperator

/-- `class CompositeLinearFunction`: a function of the form
`fun(x, params_fun) = subfun(linop(x), params_fun) + vdot(x, b)`, with `b`
and `lipschitz_fun` optional (`None` ↦ `Option.none`). -/
structure CompositeLinearFunction (m n : ℕ) (P : Type) where
  subfun : (Fin m → ℝ) → P → ℝ
  linop : LinearOperator m n
  b : Option (Fin n → ℝ)
  lipschitz_fun : Option (P → ℝ)

namespace CompositeLinearFunction

variable {m n : ℕ} {P : Type}

/-- `__call__(self, x, params_fun)`: `subfun(linop.matvec(x), params_fun)`,
plus `jnp.vdot(x, self.b)` when `self.b` is not `None`. -/
def call (f : CompositeLinearFunction m n P) (x : Fin n → ℝ) (params : P) :
    ℝ :=
  match f.b with
  | none => f.subfun (f.linop.matvec x) params
  | some b0 => f.subfun (f.linop.matvec x) params + Matrix.dotProduct x b0

/-- `column_lipschitz_constants(self, params_fun)`:
`ret = linop.column_l2_norms(squared=True)`, then `ret *=
lipschitz_fun(params_fun)` when `lipschitz_fun` is not `None`. -/
noncomputable def column_lipschitz_constants (f : CompositeLinearFunction m n P)
    (params : P) : Fin n → ℝ :=
  let ret := f.linop.column_l2_norms true
  match f.lipschitz_fun with
  | none => ret
  | some lf => fun j => ret j * lf params

end CompositeLinearFunction

/-! ## Helper lemmas -/

/-- Perturbing `x[idx] += delta` shifts the forward product by
`delta * A[:, idx]`, entrywise. -/
theorem LinearOperator.matvec_update {m n : ℕ} (op : LinearOperator m n)
    (x : Fin n → ℝ) (idx : Fin n) (delta : ℝ) (i : Fin m) :
    op.matvec (Function.update x idx (x idx + delta)) i
      = op.matvec x i + delta * op.A i idx := by
  have hx : Function.update x idx (x idx + delta) = x + Pi.single idx delta := by
    funext j
    rcases eq_or_ne j idx with hj | hj
    · subst hj; simp
    · simp [Function.update_noteq hj, Pi.single_eq_of_ne hj]
  rw [LinearOperator.matvec, hx, Matrix.mulVec_add]
  simp [LinearOperator.matvec, mul_comm]

/-! ## Claims -/

/-- C1: for every matrix `A` of shape `(m, n)`, vector `x` of length `n`,
valid index `idx < n` and scalar `delta`, `update_matvec(matvec(x), delta,
idx)` equals `matvec(x')` where `x'` is `x` with `x'[idx] = x[idx] + delta`:
the rank-1 update coincides with recomputing the product on the perturbed
input. -/
theorem update_matvec_vector_correct {m n : ℕ} (op : LinearOperator m n)
    (x : Fin n → ℝ) (idx : Fin n) (delta : ℝ) :
    op.update_matvec (.ofVec (op.matvec x)) (.scalar delta) idx.val
      = .ok (.ofVec (op.matvec (Function.update x idx (x idx + delta)))) := by
  rw [LinearOperator.update_matvec]
  rw [dif_pos idx.isLt]
  dsimp only
  rw [dif_pos rfl]
  refine congrArg (fun v : Fin m → ℝ => Except.ok (NDArray.ofVec v)) ?_
  funext i
  show op.matvec x i + delta * op.A i idx
      = op.matvec (Function.update x idx (x idx + delta)) i
  rw [op.matvec_update x idx delta i]

/-- C2: for every matrix `A` of shape `(m, n)`, batch `Ax` of shape `(m, k)`
whose column `j` is `matvec(x_j)`, valid coordinate `idx < n` and vector
`delta` of length `k`, `update_matvec(Ax, delta, idx)` equals the matrix
whose column `j` is `matvec` of `x_j` perturbed by `delta[j]` at coordinate
`idx`. -/
theorem update_matvec_matrix_correct {m n k : ℕ} (op : LinearOperator m n)
    (xs : Fin k → Fin n → ℝ) (idx : Fin n) (delta : Fin k → ℝ) :
    op.update_matvec
        (.ofMat (fun (i : Fin m) (j : Fin k) => op.matvec (xs j) i))
        (.ofVec delta) idx.val
      = .ok (.ofMat (fun (i : Fin m) (j : Fin k) =>
          op.matvec (Function.update (xs j) idx (xs j idx + delta j)) i)) := by
  rw [LinearOperator.update_matvec]
  rw [dif_pos idx.isLt]
  dsimp only
  rw [dif_pos ⟨rfl, rfl⟩]
  refine congrArg
    (fun M : Matrix (Fin m) (Fin k) ℝ => Except.ok (NDArray.ofMat M)) ?_
  funext i j
  show op.matvec (xs j) i + op.A i idx * delta j
      = op.matvec (Function.update (xs j) idx (xs j idx + delta j)) i
  rw [op.matvec_update (xs j) idx (delta j) i, mul_comm]

/-- C3: for every matrix `A` of shape `(m, n)`, vector `x` of length `n` and
valid row index `i < m`, `matvec_element(x, i)` returns exactly
`matvec(x)[i]`. -/
theorem matvec_element_eq_matvec {m n : ℕ} (op : LinearOperator m n)
    (x : Fin n → ℝ) (idx : Fin m) :
    op.matvec_element x idx.val = .ok (op.matvec x idx) := by
  rw [LinearOperator.matvec_element, dif_pos idx.isLt]
  rfl

/-- C4: for every matrix `A` of shape `(m, n)`, vector `x` of length `n` and
index `idx ≥ m`, `matvec_element(x, idx)` fails with an IndexError-kind error
rather than returning a value. -/
theorem matvec_element_out_of_range {m n : ℕ} (op : LinearOperator m n)
    (x : Fin n → ℝ) (idx : ℕ) (h : m ≤ idx) :
    op.matvec_element x idx = .error .indexError := by
  rw [LinearOperator.matvec_element, dif_neg (not_lt.mpr h)]

theorem matvec_element_out_of_range_witness :
    (1 : ℕ) ≤ 2
    ∧ (LinearOperator.mk !![(0 : ℝ)]).matvec_element (fun _ => 0) 2
        = .error .indexError :=
  ⟨by decide,
   matvec_element_out_of_range (LinearOperator.mk !![(0 : ℝ)])
     (fun _ => 0) 2 (by decide)⟩

/-- C5: for every operator, `update_rmatvec` on a matrix-shaped (rank-2)
`ATx` fails with the NotImplemented-kind error for all `delta` and `idx`,
and `ATx` of any rank other than 1 or 2 fails with the ValueError-kind
error. -/
theorem update_rmatvec_unsupported {m n : ℕ} (op : LinearOperator m n)
    (delta : NDArray) (idx : ℕ) :
    (∀ (r c : ℕ) (M : Matrix (Fin r) (Fin c) ℝ),
        op.update_rmatvec (.ofMat M) delta idx = .error .notImplementedError)
    ∧ ∀ t : NDArray, t.rank ≠ 1 → t.rank ≠ 2 →
        op.update_rmatvec t delta idx = .error (.valueError rankErrMsg) := by
  constructor
  · intro r c M
    rfl
  · intro t h1 h2
    cases t with
    | scalar v => rfl
    | ofVec v => exact absurd rfl h1
    | ofMat M => exact absurd rfl h2
    | ofTensor s d h => rfl

theorem update_rmatvec_unsupported_witness :
    (LinearOperator.mk !![(0 : ℝ)]).update_rmatvec
        (.ofMat !![(0 : ℝ)]) (.scalar 0) 0 = .error .notImplementedError
    ∧ NDArray.rank (.scalar 0) ≠ 1
    ∧ NDArray.rank (.scalar 0) ≠ 2
    ∧ (LinearOperator.mk !![(0 : ℝ)]).update_rmatvec
        (.scalar 0) (.scalar 0) 0 = .error (.valueError rankErrMsg) :=
  ⟨(update_rmatvec_unsupported (LinearOperator.mk !![(0 : ℝ)])
      (.scalar 0) 0).1 1 1 !![(0 : ℝ)],
   by decide, by decide,
   (update_rmatvec_unsupported (LinearOperator.mk !![(0 : ℝ)])
      (.scalar 0) 0).2 (.scalar 0) (by decide) (by decide)⟩

/-- C6: evaluating a `CompositeLinearFunction` built with `b` absent equals
evaluating the one built with `b` the zero vector, and both follow the
contract `subfun(linop.matvec(x), params) + <x, b>`. -/
theorem call_none_eq_call_zero {m n : ℕ} {P : Type}
    (subfun : (Fin m → ℝ) → P → ℝ) (linop : LinearOperator m n)
    (lipschitz_fun : Option (P → ℝ)) (x : Fin n → ℝ) (params : P) :
    (CompositeLinearFunction.mk subfun linop none lipschitz_fun).call x params
      = (CompositeLinearFunction.mk subfun linop (some fun _ => 0)
          lipschitz_fun).call x params
    ∧ (CompositeLinearFunction.mk subfun linop (some fun _ => 0)
          lipschitz_fun).call x params
      = subfun (linop.matvec x) params
          + Matrix.dotProduct x (fun _ => 0) := by
  constructor
  · show subfun (linop.matvec x) params
        = subfun (linop.matvec x) params + Matrix.dotProduct x (fun _ => 0)
    rw [Matrix.dotProduct_zero', add_zero]
  · rfl

/-- C7: for a `CompositeLinearFunction` built with `lipschitz_fun` absent,
`column_lipschitz_constants(params)` equals
`linop.column_l2_norms(squared=True)` exactly: the vector whose `j`-th entry
is the sum of squares of column `j` of `A`. -/
theorem column_lipschitz_constants_default {m n : ℕ} {P : Type}
    (subfun : (Fin m → ℝ) → P → ℝ) (linop : LinearOperator m n)
    (b : Option (Fin n → ℝ)) (params : P) :
    (CompositeLinearFunction.mk subfun linop b
        none).column_lipschitz_constants params
      = linop.column_l2_norms true
    ∧ ∀ j : Fin n,
        (CompositeLinearFunction.mk subfun linop b
            none).column_lipschitz_constants params j
          = ∑ i, linop.A i j ^ 2 :=
  ⟨rfl, fun _ => rfl⟩

/-- C8: for every matrix `A`, `column_l2_norms(squared=True)` equals the
elementwise square of `column_l2_norms(squared=False)`, both being length-`n`
vectors, the squared norms being the column sums of `A ** 2`. -/
theorem column_l2_norms_squared_eq_sq {m n : ℕ} (op : LinearOperator m n) :
    op.column_l2_norms true = (fun j => op.column_l2_norms false j ^ 2)
    ∧ ∀ j : Fin n, op.column_l2_norms true j = ∑ i, op.A i j ^ 2 := by
  constructor
  · funext j
    show (∑ i, op.A i j ^ 2) = Real.sqrt (∑ i, op.A i j ^ 2) ^ 2
    rw [Real.sq_sqrt (Finset.sum_nonneg fun i _ => sq_nonneg _)]
  · intro j
    rfl

/-- C9: for every operator, `tree_flatten` returns exactly the one-leaf list
`[A]` plus empty auxiliary data, and `tree_unflatten` applied to that output
rebuilds an operator whose matrix equals `op.A`. -/
theorem tree_flatten_unflatten_roundtrip {m n : ℕ} (op : LinearOperator m n) :
    op.tree_flatten = ([op.A], ())
    ∧ LinearOperator.tree_unflatten op.tree_flatten.2 op.tree_flatten.1
        = .ok op :=
  ⟨rfl, rfl⟩

/-- C10: for every matrix `A` of shape `(m, n)`, `x` of length `n` and `y` of
length `m`, `<matvec(x), y> = <x, rmatvec(y)>`: the forward and adjoint
products are mutually adjoint for the standard inner product. -/
theorem matvec_rmatvec_adjoint {m n : ℕ} (op : LinearOperator m n)
    (x : Fin n → ℝ) (y : Fin m → ℝ) :
    Matrix.dotProduct (op.matvec x) y = Matrix.dotProduct x (op.rmatvec y) := by
  show Matrix.dotProduct (op.A.mulVec x) y
      = Matrix.dotProduct x (op.A.transpose.mulVec y)
  rw [Matrix.mulVec_transpose]
  rw [Matrix.dotProduct_comm (op.A.mulVec x) y, Matrix.dotProduct_mulVec]
  rw [Matrix.dotProduct_comm]
